import Mathlib

/-!
Verification of the depinj dependency-injection library (injector.ts,
builder.ts, scope-type.ts, validate-registry.ts) via a shallow embedding.

Modelling conventions, following the TypeScript source:
- JavaScript object identity is modelled by natural-number identities:
  every instance created by a factory is a fresh allocation id drawn from a
  global counter (`World.nextVal`); reference equality of instances is
  equality of these ids.  Service-configuration objects carry a `descId`
  (their own object identity, used by `value === currRegistration` in
  `Injector.getService`) and a `factoryId` (the identity of the stored
  factory function, used by `t.factory === serviceRegistry.factory` in
  `validateEntry`); context objects are identified by a `Nat` id.
- A JavaScript `Map` is an association list in insertion order: `set` on an
  existing key replaces in place, otherwise appends; iteration over
  `values()` / `entries()` is list order.
- A factory is modelled in the shape produced by `Builder.addType`: it
  resolves a declared list of dependency keys in order through the resolver
  it is handed and then produces one fresh instance.  Invoking a factory or
  an `onScopeEnd` disposer is recorded as an event in a trace
  (`World.events`); disposers are identified by a `Nat` id.
- The mutable heap visible to the engine is `World`: the symbol-keyed
  `DependencyData` slots attached to context objects, the allocation
  counter and the event trace.  Each `Injector`'s own fields
  (`isMainScope`, bound context, its `singleInstanceServices` map — which
  `createScope` passes to the child as a copy, `new Map(...)`) are
  threaded functionally.  The registry is immutable and passed as a
  parameter.
- Runtime recursion of factories has no cycle guard in the source, so
  `getService` takes fuel; `none` is stack exhaustion (divergence), never
  an error result of the program.
-/

namespace Depinj

/-- `ScopeType` from scope-type.ts: `OnDemand = 1`, `SingleInstance = 2`,
`Transient = 3`. -/
inductive ScopeType where
  | OnDemand
  | SingleInstance
  | Transient
deriving DecidableEq, Repr

/-- The numeric value of the TypeScript enum member. -/
def ScopeType.toNat : ScopeType → Nat
  | .OnDemand => 1
  | .SingleInstance => 2
  | .Transient => 3

/-- The enum member's name, as produced by the reverse mapping
`ScopeType[value]`. -/
def ScopeType.name : ScopeType → String
  | .OnDemand => "OnDemand"
  | .SingleInstance => "SingleInstance"
  | .Transient => "Transient"

/-- `ServiceConfiguration` from builder.ts: `{ scope, factory, onScopeEnd }`.
`descId` is the object identity of this configuration record (aliased keys
registered by one `Builder.add` call share it), `factoryId` the identity of
the factory function, `deps` the dependency keys the factory resolves (the
`addType` factory shape), `onScopeEnd` the identity of the disposer. -/
structure ServiceConfiguration where
  descId : Nat
  scope : ScopeType
  factoryId : Nat
  deps : List String
  onScopeEnd : Nat
deriving DecidableEq, Repr

/-- `Registry` from builder.ts: a `Map<string, ServiceConfiguration>`,
modelled as an association list in insertion order with one entry per key. -/
abbrev Registry := List (String × ServiceConfiguration)

/-- `Map.get`: the value bound to the key, if any. -/
def mget {κ α : Type} [DecidableEq κ] : List (κ × α) → κ → Option α
  | [], _ => none
  | (k', v) :: rest, k => if k' = k then some v else mget rest k

/-- `Map.set`: replace in place if the key is bound, else append
(JavaScript `Map` keeps the original insertion position on overwrite). -/
def mset {κ α : Type} [DecidableEq κ] : List (κ × α) → κ → α → List (κ × α)
  | [], k, v => [(k, v)]
  | (k', v') :: rest, k, v =>
      if k' = k then (k', v) :: rest else (k', v') :: mset rest k v

/-- `this.registry.get(key)` (injector.ts line 87). -/
def regGet (reg : Registry) (key : String) : Option ServiceConfiguration :=
  mget reg key

/-- The alias keys of a configuration (injector.ts lines 100-102): all
registry keys whose stored configuration object is reference-identical
(`value === currRegistration`) to the resolved one, in registry order. -/
def aliasKeys (reg : Registry) (cfg : ServiceConfiguration) : List String :=
  (reg.filter (fun e => e.2.descId == cfg.descId)).map Prod.fst

/-- A created instance paired with the disposer captured from its
configuration (`ServiceHandle` in injector.ts).  `inst` is the instance's
allocation id. -/
structure ServiceHandle where
  inst : Nat
  onScopeEnd : Nat
deriving DecidableEq, Repr

/-- `DependencyData` (injector.ts lines 26-29): the state stored on a
context object under the private symbol. -/
structure DependencyData where
  scopedServices : List (String × ServiceHandle)
  onDemandServices : List ServiceHandle
deriving DecidableEq, Repr

/-- `Injector.createDependencyData` (injector.ts lines 227-235). -/
def emptyDepData : DependencyData := ⟨[], []⟩

/-- Observable events: a factory invocation producing an instance, and an
`onScopeEnd(instance, context)` disposer invocation. -/
inductive Event where
  | facCall (factoryId : Nat) (inst : Nat)
  | dispose (disposerId : Nat) (inst : Nat) (ctx : Nat)
deriving DecidableEq, Repr

/-- The mutable heap: the symbol-keyed `DependencyData` slot of each bound
context object, the allocation counter for fresh instances, and the trace
of factory/disposer invocations. -/
structure World where
  ctxData : List (Nat × DependencyData)
  nextVal : Nat
  events : List Event
deriving DecidableEq, Repr

/-- The `DependencyData` bound to a context (empty if the symbol field is
absent; the constructor always binds it before any use). -/
def dataOf (w : World) (ctx : Nat) : DependencyData :=
  (mget w.ctxData ctx).getD emptyDepData

/-- Write a context object's `DependencyData` slot. -/
def setData (w : World) (ctx : Nat) (d : DependencyData) : World :=
  { w with ctxData := mset w.ctxData ctx d }

/-- The per-injector fields of injector.ts lines 40-43 (the registry,
immutable and common to the whole scope chain, is passed separately):
`isMainScope`, the bound context object, and this injector's own
`singleInstanceServices` map. -/
structure Injector where
  isMainScope : Bool
  ctx : Nat
  single : List (String × ServiceHandle)
deriving DecidableEq, Repr

/-- The error thrown by `getService` when the key has no registration
(injector.ts lines 88-90): `UnregisteredServiceError` carrying the key. -/
structure DIError where
  key : String
deriving DecidableEq, Repr

/-- Result of one engine operation: the threaded injector, the heap, and
either the resolved instance or a thrown error. -/
abbrev Outcome := Injector × World × Except DIError Nat

/-- The `Injector` constructor (injector.ts lines 57-77): bind an empty
`DependencyData` to the context under the symbol only if the context does
not already carry one. -/
def mkInjector (w : World) (ctx : Nat) (single : List (String × ServiceHandle))
    (isMain : Bool) : Injector × World :=
  let w' := if (mget w.ctxData ctx).isSome then w else setData w ctx emptyDepData
  (⟨isMain, ctx, single⟩, w')

/-- `new Injector(scope, registry)`: root scope, fresh SingleInstance map. -/
def newInjector (w : World) (ctx : Nat) : Injector × World :=
  mkInjector w ctx [] true

/-- `Injector.createScope` (injector.ts lines 142-152): a non-root injector
bound to the new context, whose SingleInstance map is a copy
(`new Map(this.singleInstanceServices)`) of the parent's current one. -/
def createScope (inj : Injector) (w : World) (newCtx : Nat) : Injector × World :=
  mkInjector w newCtx inj.single false

/-- The loop of `Injector.getOrCreate` (injector.ts lines 202-209): search
the map under each alias key in order, first hit wins. -/
def mfindFirst (m : List (String × ServiceHandle)) : List String → Option ServiceHandle
  | [] => none
  | k :: ks =>
      match mget m k with
      | some h => some h
      | none => mfindFirst m ks

/-- Allocate the instance for one factory invocation: draw a fresh id,
record the invocation event. -/
def allocWorld (w : World) (factoryId : Nat) : Nat × World :=
  (w.nextVal,
   { w with nextVal := w.nextVal + 1,
            events := w.events ++ [Event.facCall factoryId w.nextVal] })

/-- Resolve a factory's declared dependency keys in order through the
resolver `g`, propagating a thrown error and aborting on exhausted fuel. -/
def resolveDeps (g : Injector → World → String → Option Outcome) :
    Injector → World → List String → Option (Injector × World × Except DIError Unit)
  | inj, w, [] => some (inj, w, Except.ok ())
  | inj, w, d :: ds =>
      match g inj w d with
      | none => none
      | some (inj', w', Except.error e) => some (inj', w', Except.error e)
      | some (inj', w', Except.ok _) => resolveDeps g inj' w' ds

/-- The `createInstance` closure of `getService` (injector.ts lines 94-97):
run the registered factory — resolve its dependency keys through the same
injector, then produce a fresh instance — and pair the instance with the
configuration's `onScopeEnd`. -/
def createInstanceWith (g : Injector → World → String → Option Outcome)
    (inj : Injector) (w : World) (cfg : ServiceConfiguration) :
    Option (Injector × World × Except DIError ServiceHandle) :=
  match resolveDeps g inj w cfg.deps with
  | none => none
  | some (inj', w', Except.error e) => some (inj', w', Except.error e)
  | some (inj', w', Except.ok _) =>
      let a := allocWorld w' cfg.factoryId
      some (inj', a.2, Except.ok ⟨a.1, cfg.onScopeEnd⟩)

/-- `Injector.getService` (injector.ts lines 86-132), with
`Injector.getOrCreate` (lines 195-219) inlined at its two call sites.
Fuel bounds the factory recursion depth (the source has no runtime cycle
guard); `none` means the fuel ran out, never a thrown error. -/
def getService (reg : Registry) : Nat → Injector → World → String → Option Outcome
  | 0 => fun _ _ _ => none
  | fuel + 1 => fun inj w key =>
      match regGet reg key with
      | none => some (inj, w, Except.error ⟨key⟩)
      | some cfg =>
          let keys := aliasKeys reg cfg
          match cfg.scope with
          | ScopeType.SingleInstance =>
              match mfindFirst inj.single keys with
              | some h => some (inj, w, Except.ok h.inst)
              | none =>
                  match createInstanceWith (getService reg fuel) inj w cfg with
                  | none => none
                  | some (inj', w', Except.error e) => some (inj', w', Except.error e)
                  | some (inj', w', Except.ok h) =>
                      some ({ inj' with single := mset inj'.single (keys.headD "") h },
                            w', Except.ok h.inst)
          | ScopeType.Transient =>
              match mfindFirst (dataOf w inj.ctx).scopedServices keys with
              | some h => some (inj, w, Except.ok h.inst)
              | none =>
                  match createInstanceWith (getService reg fuel) inj w cfg with
                  | none => none
                  | some (inj', w', Except.error e) => some (inj', w', Except.error e)
                  | some (inj', w', Except.ok h) =>
                      let d := dataOf w' inj'.ctx
                      some (inj',
                            setData w' inj'.ctx
                              { d with scopedServices := mset d.scopedServices (keys.headD "") h },
                            Except.ok h.inst)
          | ScopeType.OnDemand =>
              match createInstanceWith (getService reg fuel) inj w cfg with
              | none => none
              | some (inj', w', Except.error e) => some (inj', w', Except.error e)
              | some (inj', w', Except.ok h) =>
                  let d := dataOf w' inj'.ctx
                  some (inj',
                        setData w' inj'.ctx
                          { d with onDemandServices := d.onDemandServices ++ [h] },
                        Except.ok h.inst)

/-- `Injector.endScope` (injector.ts lines 164-183): invoke
`onScopeEnd(instance, context)` for every on-demand handle, then every
local scoped (Transient) handle, then — main scope only — every
SingleInstance handle, and reset the context's `DependencyData` to empty.
The injector's own fields (including `singleInstanceServices`) are
untouched. -/
def endScope (inj : Injector) (w : World) : World :=
  let sd := dataOf w inj.ctx
  let servicesToDispose :=
    sd.onDemandServices ++ sd.scopedServices.map Prod.snd ++
      (if inj.isMainScope then inj.single.map Prod.snd else [])
  let w' := { w with
    events := w.events ++
      servicesToDispose.map (fun h => Event.dispose h.onScopeEnd h.inst inj.ctx) }
  setData w' inj.ctx emptyDepData

/-- Diagnostic for an unregistered dependency (validate-registry.ts
lines 52-54). -/
def missingMsg (rootKey depKey : String) : String :=
  s!"Root Service with key {rootKey} depends on a service keyed {depKey} which does not exist."

/-- Diagnostic for a circular dependency (validate-registry.ts
lines 59-61). -/
def circularMsg (rootKey depKey : String) : String :=
  s!"Root Service with key {rootKey} has a circular dependency with {depKey}."

/-- Diagnostic for a scope-compatibility violation (validate-registry.ts
lines 71-73). -/
def scopeMsg (rootKey : String) (rootScope : ScopeType) (depKey : String)
    (depScope : ScopeType) : String :=
  let parentScopeName := rootScope.name
  let childScopeName := depScope.name
  s!"Root Service with key {rootKey} has a scope of {parentScopeName} which is less embracing than {depKey} scope of {childScopeName}."

/-- The pass-local state of `validateEntry`: the accumulated
`trackedErrors` and the `visitedServices` set (a set of keys; modelled as
a duplicate-free list in insertion order). -/
structure VState where
  errors : List String
  visited : List String
deriving DecidableEq, Repr

/-- `Set.add`: append the key unless already present. -/
def addVisited (l : List String) (k : String) : List String :=
  if l.contains k then l else l ++ [k]

/-- Add every key of a list to the visited set. -/
def addAllVisited (l : List String) (ks : List String) : List String :=
  ks.foldl addVisited l

/-- The keys the validator treats as equivalent to a dependency's
registration (validate-registry.ts lines 77-79): all registry keys whose
stored *factory function* is reference-identical
(`t.factory === serviceRegistry.factory`). -/
def equivKeys (reg : Registry) (sr : ServiceConfiguration) : List String :=
  (reg.filter (fun e => e.2.factoryId == sr.factoryId)).map Prod.fst

/-- One invocation of the simulating resolver's `getService`
(validate-registry.ts lines 49-85).  `recurse` runs the dependency's
factory (its declared dependency list) against the updated state; it is
invoked only on the fall-through branch. -/
def vStep (reg : Registry) (rootKey : String) (rootScope : ScopeType)
    (recurse : VState → List String → VState) (st : VState) (depKey : String) : VState :=
  match regGet reg depKey with
  | none => { st with errors := st.errors ++ [missingMsg rootKey depKey] }
  | some sr =>
      if st.visited.contains depKey then
        { st with errors := st.errors ++ [circularMsg rootKey depKey] }
      else if rootScope.toNat < sr.scope.toNat then
        { st with errors := st.errors ++ [scopeMsg rootKey rootScope depKey sr.scope] }
      else
        recurse { st with visited := addAllVisited st.visited (equivKeys reg sr) } sr.deps

/-- Run a factory body under the simulating resolver: resolve each declared
dependency key in order. -/
def vFold (g : VState → String → VState) : VState → List String → VState
  | st, [] => st
  | st, d :: ds => vFold g (g st d) ds

/-- The simulating resolver with a fuel bound on recursion depth.  One pass
visits each distinct registered key at most once before recursing, so
`reg.length + 1` fuel is always sufficient. -/
def vRun (reg : Registry) (rootKey : String) (rootScope : ScopeType) :
    Nat → VState → String → VState
  | 0 => fun st _ => st
  | fuel + 1 => fun st depKey =>
      vStep reg rootKey rootScope (vFold (vRun reg rootKey rootScope fuel)) st depKey

/-- `validateEntry` (validate-registry.ts lines 37-91): an independent pass
rooted at one registry entry, starting from an empty visited set, kicked
off by running the root's factory once. -/
def validateEntry (reg : Registry) (e : String × ServiceConfiguration) : List String :=
  (vFold (vRun reg e.1 e.2.scope (reg.length + 1)) ⟨[], []⟩ e.2.deps).errors

/-- `validateRegistry` (validate-registry.ts lines 13-22): concatenate the
per-entry passes in registry order. -/
def validateRegistry (reg : Registry) : List String :=
  reg.foldl (fun acc e => acc ++ validateEntry reg e) []

/-- The equivalence the specification claims the validator uses: registry
keys whose *descriptor* (configuration object) is reference-identical to
the dependency's.  Stated from the spec's words ("the alias set of a
resolved key is exactly the registry keys whose descriptor value is
reference-identical to the resolved descriptor ... in both the engine and
the validator") for comparison against the source's `equivKeys`. -/
def equivKeysByDescriptor (reg : Registry) (sr : ServiceConfiguration) : List String :=
  (reg.filter (fun e => e.2.descId == sr.descId)).map Prod.fst

/-- `vStep` as the specification describes it: identical to the source's
simulating resolver except that visited-marking uses descriptor identity. -/
def vStepDescAlias (reg : Registry) (rootKey : String) (rootScope : ScopeType)
    (recurse : VState → List String → VState) (st : VState) (depKey : String) : VState :=
  match regGet reg depKey with
  | none => { st with errors := st.errors ++ [missingMsg rootKey depKey] }
  | some sr =>
      if st.visited.contains depKey then
        { st with errors := st.errors ++ [circularMsg rootKey depKey] }
      else if rootScope.toNat < sr.scope.toNat then
        { st with errors := st.errors ++ [scopeMsg rootKey rootScope depKey sr.scope] }
      else
        recurse { st with visited := addAllVisited st.visited (equivKeysByDescriptor reg sr) } sr.deps

/-- The fuel-bounded resolver of the specification's descriptor-identity
variant. -/
def vRunDescAlias (reg : Registry) (rootKey : String) (rootScope : ScopeType) :
    Nat → VState → String → VState
  | 0 => fun st _ => st
  | fuel + 1 => fun st depKey =>
      vStepDescAlias reg rootKey rootScope (vFold (vRunDescAlias reg rootKey rootScope fuel)) st depKey

/-- `validateRegistry` as the specification's descriptor-identity reading
predicts it. -/
def validateRegistryDescAlias (reg : Registry) : List String :=
  reg.foldl
    (fun acc e =>
      acc ++ (vFold (vRunDescAlias reg e.1 e.2.scope (reg.length + 1)) ⟨[], []⟩ e.2.deps).errors)
    []

/-! ### Association-list map lemmas -/

theorem mget_mset_self {κ α : Type} [DecidableEq κ] (m : List (κ × α)) (k : κ) (v : α) :
    mget (mset m k v) k = some v := by
  induction m with
  | nil => simp [mget, mset]
  | cons p rest ih =>
      by_cases h : p.1 = k
      · simp [mset, h, mget]
      · simp [mset, h, mget, ih]

theorem mem_of_mget {κ α : Type} [DecidableEq κ] {m : List (κ × α)} {k : κ} {v : α}
    (h : mget m k = some v) : (k, v) ∈ m := by
  induction m with
  | nil => simp [mget] at h
  | cons p rest ih =>
      rw [show p = (p.1, p.2) from rfl, mget] at h
      by_cases hk : p.1 = k
      · simp [hk] at h
        subst hk h
        exact List.mem_cons_self _ _
      · simp [hk] at h
        exact List.mem_cons_of_mem _ (ih h)

theorem mem_mset {κ α : Type} [DecidableEq κ] {m : List (κ × α)} {k : κ} {v : α}
    {p : κ × α} (h : p ∈ mset m k v) : p = (k, v) ∨ p ∈ m := by
  induction m with
  | nil => simpa [mset] using h
  | cons q rest ih =>
      rw [show q = (q.1, q.2) from rfl, mset] at h
      by_cases hk : q.1 = k
      · simp [hk] at h
        rcases h with h | h
        · exact Or.inl (by simp [h, hk])
        · exact Or.inr (List.mem_cons_of_mem _ h)
      · simp [hk] at h
        rcases h with h | h
        · exact Or.inr (by simp [h])
        · rcases ih h with h' | h'
          · exact Or.inl h'
          · exact Or.inr (List.mem_cons_of_mem _ h')

theorem mfindFirst_mem {m : List (String × ServiceHandle)} {keys : List String}
    {h : ServiceHandle} (hf : mfindFirst m keys = some h) : ∃ k, (k, h) ∈ m := by
  induction keys with
  | nil => simp [mfindFirst] at hf
  | cons k ks ih =>
      rw [mfindFirst] at hf
      cases hg : mget m k with
      | some h' =>
          rw [hg] at hf
          simp at hf
          exact ⟨k, hf ▸ mem_of_mget hg⟩
      | none =>
          rw [hg] at hf
          exact ih hf

theorem mfindFirst_head_set (m : List (String × ServiceHandle)) (h : ServiceHandle)
    (a0 : String) (rest : List String) :
    mfindFirst (mset m a0 h) (a0 :: rest) = some h := by
  rw [mfindFirst, mget_mset_self]

theorem regGet_mem {reg : Registry} {k : String} {cfg : ServiceConfiguration}
    (h : regGet reg k = some cfg) : (k, cfg) ∈ reg :=
  mem_of_mget h

theorem self_mem_aliasKeys {reg : Registry} {k : String} {cfg : ServiceConfiguration}
    (h : regGet reg k = some cfg) : k ∈ aliasKeys reg cfg := by
  have hm := regGet_mem h
  unfold aliasKeys
  exact List.mem_map_of_mem Prod.fst (List.mem_filter.mpr ⟨hm, by simp⟩)

theorem aliasKeys_ne_nil {reg : Registry} {k : String} {cfg : ServiceConfiguration}
    (h : regGet reg k = some cfg) : aliasKeys reg cfg ≠ [] := by
  intro hnil
  have := self_mem_aliasKeys h
  rw [hnil] at this
  simp at this

/-! ### Unfolding lemmas for the engine -/

theorem getService_unreg {reg : Registry} {k : String} (fuel : Nat) (inj : Injector)
    (w : World) (hk : regGet reg k = none) :
    getService reg (fuel + 1) inj w k = some (inj, w, Except.error ⟨k⟩) := by
  simp [getService, hk]

theorem getService_single_hit {reg : Registry} {k : String} {cfg : ServiceConfiguration}
    {inj : Injector} {h : ServiceHandle} (fuel : Nat) (w : World)
    (hreg : regGet reg k = some cfg) (hs : cfg.scope = ScopeType.SingleInstance)
    (hf : mfindFirst inj.single (aliasKeys reg cfg) = some h) :
    getService reg (fuel + 1) inj w k = some (inj, w, Except.ok h.inst) := by
  simp [getService, hreg, hs, hf]

theorem getService_transient_hit {reg : Registry} {k : String} {cfg : ServiceConfiguration}
    {inj : Injector} {w : World} {h : ServiceHandle} (fuel : Nat)
    (hreg : regGet reg k = some cfg) (hs : cfg.scope = ScopeType.Transient)
    (hf : mfindFirst (dataOf w inj.ctx).scopedServices (aliasKeys reg cfg) = some h) :
    getService reg (fuel + 1) inj w k = some (inj, w, Except.ok h.inst) := by
  simp [getService, hreg, hs, hf]

theorem getService_single_miss_ok {reg : Registry} {k : String} {cfg : ServiceConfiguration}
    {inj inj' : Injector} {w w' : World} {h : ServiceHandle} (fuel : Nat)
    (hreg : regGet reg k = some cfg) (hs : cfg.scope = ScopeType.SingleInstance)
    (hf : mfindFirst inj.single (aliasKeys reg cfg) = none)
    (hc : createInstanceWith (getService reg fuel) inj w cfg = some (inj', w', Except.ok h)) :
    getService reg (fuel + 1) inj w k =
      some ({ inj' with single := mset inj'.single ((aliasKeys reg cfg).headD "") h },
            w', Except.ok h.inst) := by
  simp [getService, hreg, hs, hf, hc]

theorem getService_transient_miss_ok {reg : Registry} {k : String} {cfg : ServiceConfiguration}
    {inj inj' : Injector} {w w' : World} {h : ServiceHandle} (fuel : Nat)
    (hreg : regGet reg k = some cfg) (hs : cfg.scope = ScopeType.Transient)
    (hf : mfindFirst (dataOf w inj.ctx).scopedServices (aliasKeys reg cfg) = none)
    (hc : createInstanceWith (getService reg fuel) inj w cfg = some (inj', w', Except.ok h)) :
    getService reg (fuel + 1) inj w k =
      some (inj',
            setData w' inj'.ctx
              { dataOf w' inj'.ctx with
                  scopedServices :=
                    mset (dataOf w' inj'.ctx).scopedServices ((aliasKeys reg cfg).headD "") h },
            Except.ok h.inst) := by
  simp [getService, hreg, hs, hf, hc]

theorem getService_ondemand_ok {reg : Registry} {k : String} {cfg : ServiceConfiguration}
    {inj inj' : Injector} {w w' : World} {h : ServiceHandle} (fuel : Nat)
    (hreg : regGet reg k = some cfg) (hs : cfg.scope = ScopeType.OnDemand)
    (hc : createInstanceWith (getService reg fuel) inj w cfg = some (inj', w', Except.ok h)) :
    getService reg (fuel + 1) inj w k =
      some (inj',
            setData w' inj'.ctx
              { dataOf w' inj'.ctx with
                  onDemandServices := (dataOf w' inj'.ctx).onDemandServices ++ [h] },
            Except.ok h.inst) := by
  simp [getService, hreg, hs, hc]

theorem createInstanceWith_ok_inv {g : Injector → World → String → Option Outcome}
    {inj inj' : Injector} {w w' : World} {cfg : ServiceConfiguration} {h : ServiceHandle}
    (hc : createInstanceWith g inj w cfg = some (inj', w', Except.ok h)) :
    ∃ wd, resolveDeps g inj w cfg.deps = some (inj', wd, Except.ok ()) ∧
      h = ⟨wd.nextVal, cfg.onScopeEnd⟩ ∧
      w' = { wd with nextVal := wd.nextVal + 1,
                     events := wd.events ++ [Event.facCall cfg.factoryId wd.nextVal] } := by
  unfold createInstanceWith at hc
  cases hr : resolveDeps g inj w cfg.deps with
  | none => rw [hr] at hc; simp at hc
  | some t =>
      obtain ⟨i2, w2, r2⟩ := t
      rw [hr] at hc
      cases r2 with
      | error e => simp at hc
      | ok u =>
          cases u
          simp only [allocWorld, Option.some.injEq, Prod.mk.injEq, Except.ok.injEq] at hc
          obtain ⟨hi, hw, hh⟩ := hc
          subst hi
          exact ⟨w2, rfl, hh.symm, hw.symm⟩

theorem getService_single_ok_inv {reg : Registry} {k : String} {cfg : ServiceConfiguration}
    {inj inj1 : Injector} {w w1 : World} {v : Nat} (fuel : Nat)
    (hreg : regGet reg k = some cfg) (hs : cfg.scope = ScopeType.SingleInstance)
    (h1 : getService reg (fuel + 1) inj w k = some (inj1, w1, Except.ok v)) :
    (∃ h, mfindFirst inj.single (aliasKeys reg cfg) = some h ∧
       inj1 = inj ∧ w1 = w ∧ v = h.inst) ∨
    (∃ inj' h, mfindFirst inj.single (aliasKeys reg cfg) = none ∧
       createInstanceWith (getService reg fuel) inj w cfg = some (inj', w1, Except.ok h) ∧
       inj1 = { inj' with single := mset inj'.single ((aliasKeys reg cfg).headD "") h } ∧
       v = h.inst) := by
  cases hf : mfindFirst inj.single (aliasKeys reg cfg) with
  | some h =>
      rw [getService_single_hit fuel w hreg hs hf] at h1
      simp only [Option.some.injEq, Prod.mk.injEq, Except.ok.injEq] at h1
      exact Or.inl ⟨h, rfl, h1.1.symm, h1.2.1.symm, h1.2.2.symm⟩
  | none =>
      simp only [getService, hreg, hs, hf] at h1
      cases hc : createInstanceWith (getService reg fuel) inj w cfg with
      | none => rw [hc] at h1; simp at h1
      | some t =>
          obtain ⟨i2, w2, r2⟩ := t
          rw [hc] at h1
          cases r2 with
          | error e => simp at h1
          | ok h =>
              simp only [Option.some.injEq, Prod.mk.injEq, Except.ok.injEq] at h1
              obtain ⟨hi, hw, hv⟩ := h1
              subst hw
              exact Or.inr ⟨i2, h, rfl, rfl, hi.symm, hv.symm⟩

theorem getService_transient_ok_inv {reg : Registry} {k : String} {cfg : ServiceConfiguration}
    {inj inj1 : Injector} {w w1 : World} {v : Nat} (fuel : Nat)
    (hreg : regGet reg k = some cfg) (hs : cfg.scope = ScopeType.Transient)
    (h1 : getService reg (fuel + 1) inj w k = some (inj1, w1, Except.ok v)) :
    (∃ h, mfindFirst (dataOf w inj.ctx).scopedServices (aliasKeys reg cfg) = some h ∧
       inj1 = inj ∧ w1 = w ∧ v = h.inst) ∨
    (∃ w' h, mfindFirst (dataOf w inj.ctx).scopedServices (aliasKeys reg cfg) = none ∧
       createInstanceWith (getService reg fuel) inj w cfg = some (inj1, w', Except.ok h) ∧
       w1 = setData w' inj1.ctx
              { dataOf w' inj1.ctx with
                  scopedServices :=
                    mset (dataOf w' inj1.ctx).scopedServices ((aliasKeys reg cfg).headD "") h } ∧
       v = h.inst) := by
  cases hf : mfindFirst (dataOf w inj.ctx).scopedServices (aliasKeys reg cfg) with
  | some h =>
      rw [getService_transient_hit fuel hreg hs hf] at h1
      simp only [Option.some.injEq, Prod.mk.injEq, Except.ok.injEq] at h1
      exact Or.inl ⟨h, rfl, h1.1.symm, h1.2.1.symm, h1.2.2.symm⟩
  | none =>
      simp only [getService, hreg, hs, hf] at h1
      cases hc : createInstanceWith (getService reg fuel) inj w cfg with
      | none => rw [hc] at h1; simp at h1
      | some t =>
          obtain ⟨i2, w2, r2⟩ := t
          rw [hc] at h1
          cases r2 with
          | error e => simp at h1
          | ok h =>
              simp only [Option.some.injEq, Prod.mk.injEq, Except.ok.injEq] at h1
              obtain ⟨hi, hw, hv⟩ := h1
              subst hi
              exact Or.inr ⟨w2, h, rfl, rfl, hw.symm, hv.symm⟩

/-! ### Monotonicity: any engine call preserves the injector's identity
fields, never decreases the allocation counter, and only appends events. -/

/-- Resolver property: the threaded injector keeps its context and
main-scope flag, the counter is monotone, and the event trace grows by
appending. -/
def GMono (g : Injector → World → String → Option Outcome) : Prop :=
  ∀ inj w k inj' w' r, g inj w k = some (inj', w', r) →
    inj'.ctx = inj.ctx ∧ inj'.isMainScope = inj.isMainScope ∧
    w.nextVal ≤ w'.nextVal ∧ ∃ E, w'.events = w.events ++ E

theorem resolveDeps_mono {g : Injector → World → String → Option Outcome}
    (hg : GMono g) (ds : List String) :
    ∀ inj w inj' w' r, resolveDeps g inj w ds = some (inj', w', r) →
      inj'.ctx = inj.ctx ∧ inj'.isMainScope = inj.isMainScope ∧
      w.nextVal ≤ w'.nextVal ∧ ∃ E, w'.events = w.events ++ E := by
  induction ds with
  | nil =>
      intro inj w inj' w' r h
      simp only [resolveDeps, Option.some.injEq, Prod.mk.injEq] at h
      obtain ⟨h1, h2, -⟩ := h
      subst h1 h2
      exact ⟨rfl, rfl, le_refl _, [], by simp⟩
  | cons d ds ih =>
      intro inj w inj' w' r h
      rw [resolveDeps] at h
      cases hgd : g inj w d with
      | none => rw [hgd] at h; simp at h
      | some t =>
          obtain ⟨i2, w2, r2⟩ := t
          rw [hgd] at h
          obtain ⟨hc, hm, hn, E1, hE1⟩ := hg inj w d i2 w2 r2 hgd
          cases r2 with
          | error e =>
              simp only [Option.some.injEq, Prod.mk.injEq] at h
              obtain ⟨h1, h2, -⟩ := h
              subst h1 h2
              exact ⟨hc, hm, hn, E1, hE1⟩
          | ok u =>
              obtain ⟨hc2, hm2, hn2, E2, hE2⟩ := ih i2 w2 inj' w' r h
              exact ⟨hc2.trans hc, hm2.trans hm, hn.trans hn2,
                     E1 ++ E2, by rw [hE2, hE1, List.append_assoc]⟩

theorem createInstanceWith_mono {g : Injector → World → String → Option Outcome}
    (hg : GMono g) {inj inj' : Injector} {w w' : World} {cfg : ServiceConfiguration}
    {r : Except DIError ServiceHandle}
    (hc : createInstanceWith g inj w cfg = some (inj', w', r)) :
    inj'.ctx = inj.ctx ∧ inj'.isMainScope = inj.isMainScope ∧
    w.nextVal ≤ w'.nextVal ∧ (∃ E, w'.events = w.events ++ E) ∧
    (∀ h, r = Except.ok h → w.nextVal ≤ h.inst ∧ h.inst + 1 = w'.nextVal) := by
  unfold createInstanceWith at hc
  cases hr : resolveDeps g inj w cfg.deps with
  | none => rw [hr] at hc; simp at hc
  | some t =>
      obtain ⟨i2, w2, r2⟩ := t
      rw [hr] at hc
      obtain ⟨hcx, hm, hn, E1, hE1⟩ := resolveDeps_mono hg cfg.deps inj w i2 w2 r2 hr
      cases r2 with
      | error e =>
          simp only [Option.some.injEq, Prod.mk.injEq] at hc
          obtain ⟨h1, h2, h3⟩ := hc
          subst h1 h2 h3
          exact ⟨hcx, hm, hn, ⟨E1, hE1⟩, by intro h hh; cases hh⟩
      | ok u =>
          simp only [allocWorld, Option.some.injEq, Prod.mk.injEq] at hc
          obtain ⟨h1, h2, h3⟩ := hc
          subst h1 h2 h3
          refine ⟨hcx, hm, hn.trans (Nat.le_succ _),
                  ⟨E1 ++ [Event.facCall cfg.factoryId w2.nextVal], by simp [hE1]⟩, ?_⟩
          intro h hh
          injection hh with hh'
          subst hh'
          exact ⟨hn, rfl⟩

theorem getService_mono (reg : Registry) : ∀ fuel, GMono (getService reg fuel) := by
  intro fuel
  induction fuel with
  | zero => intro inj w k inj' w' r h; simp [getService] at h
  | succ fuel ih =>
      intro inj w k inj' w' r h
      cases hreg : regGet reg k with
      | none =>
          rw [getService_unreg fuel inj w hreg] at h
          simp only [Option.some.injEq, Prod.mk.injEq] at h
          obtain ⟨h1, h2, -⟩ := h
          subst h1 h2
          exact ⟨rfl, rfl, le_refl _, [], by simp⟩
      | some cfg =>
          simp only [getService, hreg] at h
          cases hs : cfg.scope with
          | SingleInstance =>
              rw [hs] at h
              cases hf : mfindFirst inj.single (aliasKeys reg cfg) with
              | some hd =>
                  rw [hf] at h
                  simp only [Option.some.injEq, Prod.mk.injEq] at h
                  obtain ⟨h1, h2, -⟩ := h
                  subst h1 h2
                  exact ⟨rfl, rfl, le_refl _, [], by simp⟩
              | none =>
                  rw [hf] at h
                  cases hc : createInstanceWith (getService reg fuel) inj w cfg with
                  | none => rw [hc] at h; simp at h
                  | some t =>
                      obtain ⟨i2, w2, r2⟩ := t
                      rw [hc] at h
                      obtain ⟨hcx, hm, hn, hE, -⟩ := createInstanceWith_mono ih hc
                      cases r2 with
                      | error e =>
                          simp only [Option.some.injEq, Prod.mk.injEq] at h
                          obtain ⟨h1, h2, -⟩ := h
                          subst h1 h2
                          exact ⟨hcx, hm, hn, hE⟩
                      | ok hd =>
                          simp only [Option.some.injEq, Prod.mk.injEq] at h
                          obtain ⟨h1, h2, -⟩ := h
                          subst h1 h2
                          exact ⟨hcx, hm, hn, hE⟩
          | Transient =>
              rw [hs] at h
              cases hf : mfindFirst (dataOf w inj.ctx).scopedServices (aliasKeys reg cfg) with
              | some hd =>
                  rw [hf] at h
                  simp only [Option.some.injEq, Prod.mk.injEq] at h
                  obtain ⟨h1, h2, -⟩ := h
                  subst h1 h2
                  exact ⟨rfl, rfl, le_refl _, [], by simp⟩
              | none =>
                  rw [hf] at h
                  cases hc : createInstanceWith (getService reg fuel) inj w cfg with
                  | none => rw [hc] at h; simp at h
                  | some t =>
                      obtain ⟨i2, w2, r2⟩ := t
                      rw [hc] at h
                      obtain ⟨hcx, hm, hn, ⟨E, hE⟩, -⟩ := createInstanceWith_mono ih hc
                      cases r2 with
                      | error e =>
                          simp only [Option.some.injEq, Prod.mk.injEq] at h
                          obtain ⟨h1, h2, -⟩ := h
                          subst h1 h2
                          exact ⟨hcx, hm, hn, E, hE⟩
                      | ok hd =>
                          simp only [Option.some.injEq, Prod.mk.injEq] at h
                          obtain ⟨h1, h2, -⟩ := h
                          subst h1 h2
                          exact ⟨hcx, hm, hn, E, by simp [setData, hE]⟩
          | OnDemand =>
              rw [hs] at h
              cases hc : createInstanceWith (getService reg fuel) inj w cfg with
              | none => rw [hc] at h; simp at h
              | some t =>
                  obtain ⟨i2, w2, r2⟩ := t
                  rw [hc] at h
                  obtain ⟨hcx, hm, hn, ⟨E, hE⟩, -⟩ := createInstanceWith_mono ih hc
                  cases r2 with
                  | error e =>
                      simp only [Option.some.injEq, Prod.mk.injEq] at h
                      obtain ⟨h1, h2, -⟩ := h
                      subst h1 h2
                      exact ⟨hcx, hm, hn, E, hE⟩
                  | ok hd =>
                      simp only [Option.some.injEq, Prod.mk.injEq] at h
                      obtain ⟨h1, h2, -⟩ := h
                      subst h1 h2
                      exact ⟨hcx, hm, hn, E, by simp [setData, hE]⟩

/-! ### Validity: every instance stored in any cache was allocated below
the counter, so freshly allocated instances are distinct from all stored
ones. -/

/-- Every handle of the map holds an instance id below `n`. -/
def mapBelow (m : List (String × ServiceHandle)) (n : Nat) : Prop :=
  ∀ p ∈ m, p.2.inst < n

/-- Every handle of the `DependencyData` holds an instance id below `n`. -/
def dataBelow (d : DependencyData) (n : Nat) : Prop :=
  mapBelow d.scopedServices n ∧ ∀ h ∈ d.onDemandServices, h.inst < n

/-- Validity of the whole heap plus one injector's SingleInstance map. -/
def stOk (inj : Injector) (w : World) : Prop :=
  (∀ p ∈ w.ctxData, dataBelow p.2 w.nextVal) ∧ mapBelow inj.single w.nextVal

theorem mapBelow_mono {m : List (String × ServiceHandle)} {n n' : Nat}
    (h : mapBelow m n) (hle : n ≤ n') : mapBelow m n' :=
  fun p hp => lt_of_lt_of_le (h p hp) hle

theorem dataBelow_mono {d : DependencyData} {n n' : Nat}
    (h : dataBelow d n) (hle : n ≤ n') : dataBelow d n' :=
  ⟨mapBelow_mono h.1 hle, fun p hp => lt_of_lt_of_le (h.2 p hp) hle⟩

theorem mapBelow_mset {m : List (String × ServiceHandle)} {n : Nat} {k : String}
    {h : ServiceHandle} (hm : mapBelow m n) (hh : h.inst < n) :
    mapBelow (mset m k h) n := by
  intro p hp
  rcases mem_mset hp with rfl | hp'
  · exact hh
  · exact hm p hp'

theorem dataBelow_dataOf {w : World} {ctx : Nat}
    (hw : ∀ p ∈ w.ctxData, dataBelow p.2 w.nextVal) :
    dataBelow (dataOf w ctx) w.nextVal := by
  unfold dataOf
  cases hg : mget w.ctxData ctx with
  | none => exact ⟨fun p hp => by simp [emptyDepData] at hp, fun p hp => by simp [emptyDepData] at hp⟩
  | some d => exact hw (ctx, d) (mem_of_mget hg)

theorem worldOk_setData {w : World} {ctx : Nat} {d : DependencyData}
    (hw : ∀ p ∈ w.ctxData, dataBelow p.2 w.nextVal) (hd : dataBelow d w.nextVal) :
    ∀ p ∈ (setData w ctx d).ctxData, dataBelow p.2 (setData w ctx d).nextVal := by
  intro p hp
  rcases mem_mset hp with rfl | hp'
  · exact hd
  · exact hw p hp'

/-- Resolver property: validity of the threaded state is preserved and any
resolved instance lies below the final counter. -/
def GSound (g : Injector → World → String → Option Outcome) : Prop :=
  ∀ inj w k inj' w' r, stOk inj w → g inj w k = some (inj', w', r) →
    stOk inj' w' ∧ ∀ v, r = Except.ok v → v < w'.nextVal

theorem resolveDeps_sound {g : Injector → World → String → Option Outcome}
    (hg : GSound g) (ds : List String) :
    ∀ inj w inj' w' r, stOk inj w → resolveDeps g inj w ds = some (inj', w', r) →
      stOk inj' w' := by
  induction ds with
  | nil =>
      intro inj w inj' w' r hok h
      simp only [resolveDeps, Option.some.injEq, Prod.mk.injEq] at h
      obtain ⟨h1, h2, -⟩ := h
      subst h1 h2
      exact hok
  | cons d ds ih =>
      intro inj w inj' w' r hok h
      rw [resolveDeps] at h
      cases hgd : g inj w d with
      | none => rw [hgd] at h; simp at h
      | some t =>
          obtain ⟨i2, w2, r2⟩ := t
          rw [hgd] at h
          have hok2 := (hg inj w d i2 w2 r2 hok hgd).1
          cases r2 with
          | error e =>
              simp only [Option.some.injEq, Prod.mk.injEq] at h
              obtain ⟨h1, h2, -⟩ := h
              subst h1 h2
              exact hok2
          | ok u => exact ih i2 w2 inj' w' r hok2 h

theorem createInstanceWith_sound {g : Injector → World → String → Option Outcome}
    (hgs : GSound g) {inj inj' : Injector} {w w' : World}
    {cfg : ServiceConfiguration} {r : Except DIError ServiceHandle}
    (hok : stOk inj w) (hc : createInstanceWith g inj w cfg = some (inj', w', r)) :
    stOk inj' w' ∧ ∀ h, r = Except.ok h → h.inst < w'.nextVal := by
  unfold createInstanceWith at hc
  cases hr : resolveDeps g inj w cfg.deps with
  | none => rw [hr] at hc; simp at hc
  | some t =>
      obtain ⟨i2, w2, r2⟩ := t
      rw [hr] at hc
      have hok2 := resolveDeps_sound hgs cfg.deps inj w i2 w2 r2 hok hr
      cases r2 with
      | error e =>
          simp only [Option.some.injEq, Prod.mk.injEq] at hc
          obtain ⟨h1, h2, h3⟩ := hc
          subst h1 h2 h3
          exact ⟨hok2, by intro h hh; cases hh⟩
      | ok u =>
          simp only [allocWorld, Option.some.injEq, Prod.mk.injEq] at hc
          obtain ⟨h1, h2, h3⟩ := hc
          subst h1 h2 h3
          refine ⟨⟨?_, ?_⟩, ?_⟩
          · intro p hp
            exact dataBelow_mono (hok2.1 p hp) (Nat.le_succ _)
          · exact mapBelow_mono hok2.2 (Nat.le_succ _)
          · intro h hh
            injection hh with hh'
            subst hh'
            exact Nat.lt_succ_self _

theorem getService_sound (reg : Registry) : ∀ fuel, GSound (getService reg fuel) := by
  intro fuel
  induction fuel with
  | zero => intro inj w k inj' w' r hok h; simp [getService] at h
  | succ fuel ih =>
      intro inj w k inj' w' r hok h
      cases hreg : regGet reg k with
      | none =>
          rw [getService_unreg fuel inj w hreg] at h
          simp only [Option.some.injEq, Prod.mk.injEq] at h
          obtain ⟨h1, h2, h3⟩ := h
          subst h1 h2 h3
          exact ⟨hok, by intro v hv; cases hv⟩
      | some cfg =>
          simp only [getService, hreg] at h
          cases hs : cfg.scope with
          | SingleInstance =>
              rw [hs] at h
              cases hf : mfindFirst inj.single (aliasKeys reg cfg) with
              | some hd =>
                  rw [hf] at h
                  simp only [Option.some.injEq, Prod.mk.injEq] at h
                  obtain ⟨h1, h2, h3⟩ := h
                  subst h1 h2 h3
                  refine ⟨hok, ?_⟩
                  intro v hv
                  injection hv with hv'
                  subst hv'
                  obtain ⟨k', hk'⟩ := mfindFirst_mem hf
                  exact hok.2 _ hk'
              | none =>
                  rw [hf] at h
                  cases hc : createInstanceWith (getService reg fuel) inj w cfg with
                  | none => rw [hc] at h; simp at h
                  | some t =>
                      obtain ⟨i2, w2, r2⟩ := t
                      rw [hc] at h
                      obtain ⟨hok2, hbnd⟩ := createInstanceWith_sound ih hok hc
                      cases r2 with
                      | error e =>
                          simp only [Option.some.injEq, Prod.mk.injEq] at h
                          obtain ⟨h1, h2, h3⟩ := h
                          subst h1 h2 h3
                          exact ⟨hok2, by intro v hv; cases hv⟩
                      | ok hd =>
                          simp only [Option.some.injEq, Prod.mk.injEq] at h
                          obtain ⟨h1, h2, h3⟩ := h
                          subst h1 h2 h3
                          have hdlt := hbnd hd rfl
                          refine ⟨⟨hok2.1, mapBelow_mset hok2.2 hdlt⟩, ?_⟩
                          intro v hv
                          injection hv with hv'
                          subst hv'
                          exact hdlt
          | Transient =>
              rw [hs] at h
              cases hf : mfindFirst (dataOf w inj.ctx).scopedServices (aliasKeys reg cfg) with
              | some hd =>
                  rw [hf] at h
                  simp only [Option.some.injEq, Prod.mk.injEq] at h
                  obtain ⟨h1, h2, h3⟩ := h
                  subst h1 h2 h3
                  refine ⟨hok, ?_⟩
                  intro v hv
                  injection hv with hv'
                  subst hv'
                  obtain ⟨k', hk'⟩ := mfindFirst_mem hf
                  exact (dataBelow_dataOf hok.1).1 _ hk'
              | none =>
                  rw [hf] at h
                  cases hc : createInstanceWith (getService reg fuel) inj w cfg with
                  | none => rw [hc] at h; simp at h
                  | some t =>
                      obtain ⟨i2, w2, r2⟩ := t
                      rw [hc] at h
                      obtain ⟨hok2, hbnd⟩ := createInstanceWith_sound ih hok hc
                      cases r2 with
                      | error e =>
                          simp only [Option.some.injEq, Prod.mk.injEq] at h
                          obtain ⟨h1, h2, h3⟩ := h
                          subst h1 h2 h3
                          exact ⟨hok2, by intro v hv; cases hv⟩
                      | ok hd =>
                          simp only [Option.some.injEq, Prod.mk.injEq] at h
                          obtain ⟨h1, h2, h3⟩ := h
                          subst h1 h2 h3
                          have hdlt := hbnd hd rfl
                          have hdb := @dataBelow_dataOf w2 i2.ctx hok2.1
                          refine ⟨⟨worldOk_setData hok2.1 ⟨mapBelow_mset hdb.1 hdlt, hdb.2⟩, hok2.2⟩, ?_⟩
                          intro v hv
                          injection hv with hv'
                          subst hv'
                          exact hdlt
          | OnDemand =>
              rw [hs] at h
              cases hc : createInstanceWith (getService reg fuel) inj w cfg with
              | none => rw [hc] at h; simp at h
              | some t =>
                  obtain ⟨i2, w2, r2⟩ := t
                  rw [hc] at h
                  obtain ⟨hok2, hbnd⟩ := createInstanceWith_sound ih hok hc
                  cases r2 with
                  | error e =>
                      simp only [Option.some.injEq, Prod.mk.injEq] at h
                      obtain ⟨h1, h2, h3⟩ := h
                      subst h1 h2 h3
                      exact ⟨hok2, by intro v hv; cases hv⟩
                  | ok hd =>
                      simp only [Option.some.injEq, Prod.mk.injEq] at h
                      obtain ⟨h1, h2, h3⟩ := h
                      subst h1 h2 h3
                      have hdlt := hbnd hd rfl
                      have hdb := @dataBelow_dataOf w2 i2.ctx hok2.1
                      refine ⟨⟨worldOk_setData hok2.1 ⟨hdb.1, ?_⟩, hok2.2⟩, ?_⟩
                      · intro p hp
                        rcases List.mem_append.mp hp with hp' | hp'
                        · exact hdb.2 p hp'
                        · simp at hp'
                          subst hp'
                          exact hdlt
                      · intro v hv
                        injection hv with hv'
                        subst hv'
                        exact hdlt

/-! ### Cache contents after a successful resolution -/

theorem dataOf_setData (w : World) (c : Nat) (d : DependencyData) :
    dataOf (setData w c d) c = d := by
  simp [dataOf, setData, mget_mset_self]

/-- After a successful SingleInstance resolution the injector's shared
cache maps some alias key of the resolved configuration to the returned
instance. -/
theorem single_cached_after {reg : Registry} {k : String} {cfg : ServiceConfiguration}
    {inj inj1 : Injector} {w w1 : World} {v : Nat} {fuel : Nat}
    (hreg : regGet reg k = some cfg) (hs : cfg.scope = ScopeType.SingleInstance)
    (h1 : getService reg fuel inj w k = some (inj1, w1, Except.ok v)) :
    ∃ h, mfindFirst inj1.single (aliasKeys reg cfg) = some h ∧ h.inst = v := by
  cases fuel with
  | zero => simp [getService] at h1
  | succ fuel =>
      rcases getService_single_ok_inv fuel hreg hs h1 with
        ⟨h, hf, hi, hw, hv⟩ | ⟨inj', h, hf, hc, hi, hv⟩
      · subst hi
        exact ⟨h, hf, hv.symm⟩
      · subst hi
        cases heq : aliasKeys reg cfg with
        | nil => exact absurd heq (aliasKeys_ne_nil hreg)
        | cons a0 rest =>
            exact ⟨h, mfindFirst_head_set inj'.single h a0 rest, hv.symm⟩

/-- After a successful Transient resolution the scope-local cache on the
injector's context maps some alias key of the resolved configuration to
the returned instance. -/
theorem transient_cached_after {reg : Registry} {k : String} {cfg : ServiceConfiguration}
    {inj inj1 : Injector} {w w1 : World} {v : Nat} {fuel : Nat}
    (hreg : regGet reg k = some cfg) (hs : cfg.scope = ScopeType.Transient)
    (h1 : getService reg fuel inj w k = some (inj1, w1, Except.ok v)) :
    ∃ h, mfindFirst (dataOf w1 inj1.ctx).scopedServices (aliasKeys reg cfg) = some h ∧
      h.inst = v := by
  cases fuel with
  | zero => simp [getService] at h1
  | succ fuel =>
      rcases getService_transient_ok_inv fuel hreg hs h1 with
        ⟨h, hf, hi, hw, hv⟩ | ⟨w', h, hf, hc, hw, hv⟩
      · subst hi hw
        exact ⟨h, hf, hv.symm⟩
      · subst hw
        cases heq : aliasKeys reg cfg with
        | nil => exact absurd heq (aliasKeys_ne_nil hreg)
        | cons a0 rest =>
            refine ⟨h, ?_, hv.symm⟩
            rw [dataOf_setData]
            exact mfindFirst_head_set (dataOf w' inj1.ctx).scopedServices h a0 rest

/-! ### Freshness of instances created on a cache miss -/

/-- A SingleInstance resolution that misses the cache allocates its result
at or above the entry counter and ends with the factory-invocation event. -/
theorem single_miss_fresh {reg : Registry} {k : String} {cfg : ServiceConfiguration}
    {inj inj1 : Injector} {w w1 : World} {v : Nat} {fuel : Nat}
    (hreg : regGet reg k = some cfg) (hs : cfg.scope = ScopeType.SingleInstance)
    (hf : mfindFirst inj.single (aliasKeys reg cfg) = none)
    (h1 : getService reg (fuel + 1) inj w k = some (inj1, w1, Except.ok v)) :
    w.nextVal ≤ v ∧ ∃ E, w1.events = w.events ++ E ++ [Event.facCall cfg.factoryId v] := by
  rcases getService_single_ok_inv fuel hreg hs h1 with
    ⟨h, hf', hi, hw, hv⟩ | ⟨inj', h, hf', hc, hi, hv⟩
  · rw [hf] at hf'; cases hf'
  · obtain ⟨wd, hr, hh, hw'⟩ := createInstanceWith_ok_inv hc
    obtain ⟨-, -, hn, E1, hE1⟩ :=
      resolveDeps_mono (getService_mono reg fuel) cfg.deps inj w inj' wd (Except.ok ()) hr
    subst hh hv hw'
    exact ⟨hn, E1, by simp [hE1]⟩

/-- A Transient resolution that misses the scope-local cache allocates its
result at or above the entry counter and ends with the factory-invocation
event. -/
theorem transient_miss_fresh {reg : Registry} {k : String} {cfg : ServiceConfiguration}
    {inj inj1 : Injector} {w w1 : World} {v : Nat} {fuel : Nat}
    (hreg : regGet reg k = some cfg) (hs : cfg.scope = ScopeType.Transient)
    (hf : mfindFirst (dataOf w inj.ctx).scopedServices (aliasKeys reg cfg) = none)
    (h1 : getService reg (fuel + 1) inj w k = some (inj1, w1, Except.ok v)) :
    w.nextVal ≤ v ∧ ∃ E, w1.events = w.events ++ E ++ [Event.facCall cfg.factoryId v] := by
  rcases getService_transient_ok_inv fuel hreg hs h1 with
    ⟨h, hf', hi, hw, hv⟩ | ⟨w', h, hf', hc, hw, hv⟩
  · rw [hf] at hf'; cases hf'
  · obtain ⟨wd, hr, hh, hw'⟩ := createInstanceWith_ok_inv hc
    obtain ⟨-, -, hn, E1, hE1⟩ :=
      resolveDeps_mono (getService_mono reg fuel) cfg.deps inj w inj1 wd (Except.ok ()) hr
    subst hh hv hw' hw
    exact ⟨hn, E1, by simp [setData, hE1]⟩

/-- An OnDemand resolution always allocates its result at or above the
entry counter and records the factory-invocation event. -/
theorem ondemand_fresh {reg : Registry} {k : String} {cfg : ServiceConfiguration}
    {inj inj1 : Injector} {w w1 : World} {v : Nat} {fuel : Nat}
    (hreg : regGet reg k = some cfg) (hs : cfg.scope = ScopeType.OnDemand)
    (h1 : getService reg (fuel + 1) inj w k = some (inj1, w1, Except.ok v)) :
    w.nextVal ≤ v ∧ ∃ E, w1.events = w.events ++ E ++ [Event.facCall cfg.factoryId v] := by
  simp only [getService, hreg, hs] at h1
  cases hc : createInstanceWith (getService reg fuel) inj w cfg with
  | none => rw [hc] at h1; simp at h1
  | some t =>
      obtain ⟨i2, w2, r2⟩ := t
      rw [hc] at h1
      cases r2 with
      | error e => simp at h1
      | ok h =>
          simp only [Option.some.injEq, Prod.mk.injEq, Except.ok.injEq] at h1
          obtain ⟨hi, hw, hv⟩ := h1
          obtain ⟨wd, hr, hh, hw'⟩ := createInstanceWith_ok_inv hc
          obtain ⟨-, -, hn, E1, hE1⟩ :=
            resolveDeps_mono (getService_mono reg fuel) cfg.deps inj w i2 wd (Except.ok ()) hr
          subst hh hw' hw
          refine ⟨hv ▸ hn, E1, ?_⟩
          rw [← hv]
          simp [setData, hE1]

/-! ### The only error the engine raises is the unregistered-key error -/

theorem resolveDeps_error {g : Injector → World → String → Option Outcome}
    {P : DIError → Prop}
    (hg : ∀ inj w k inj' w' e, g inj w k = some (inj', w', Except.error e) → P e)
    (ds : List String) :
    ∀ inj w inj' w' e, resolveDeps g inj w ds = some (inj', w', Except.error e) → P e := by
  induction ds with
  | nil =>
      intro inj w inj' w' e h
      simp [resolveDeps] at h
  | cons d ds ih =>
      intro inj w inj' w' e h
      rw [resolveDeps] at h
      cases hgd : g inj w d with
      | none => rw [hgd] at h; simp at h
      | some t =>
          obtain ⟨i2, w2, r2⟩ := t
          rw [hgd] at h
          cases r2 with
          | error e2 =>
              simp only [Option.some.injEq, Prod.mk.injEq] at h
              obtain ⟨-, -, h3⟩ := h
              injection h3 with h3'
              exact h3' ▸ hg inj w d i2 w2 e2 hgd
          | ok u => exact ih i2 w2 inj' w' e h

theorem createInstanceWith_error {g : Injector → World → String → Option Outcome}
    {P : DIError → Prop}
    (hg : ∀ inj w k inj' w' e, g inj w k = some (inj', w', Except.error e) → P e)
    {inj inj' : Injector} {w w' : World} {cfg : ServiceConfiguration} {e : DIError}
    (hc : createInstanceWith g inj w cfg = some (inj', w', Except.error e)) : P e := by
  unfold createInstanceWith at hc
  cases hr : resolveDeps g inj w cfg.deps with
  | none => rw [hr] at hc; simp at hc
  | some t =>
      obtain ⟨i2, w2, r2⟩ := t
      rw [hr] at hc
      cases r2 with
      | error e2 =>
          simp only [Option.some.injEq, Prod.mk.injEq] at hc
          obtain ⟨-, -, h3⟩ := hc
          injection h3 with h3'
          exact h3' ▸ resolveDeps_error hg cfg.deps inj w i2 w2 e2 hr
      | ok u => simp [allocWorld] at hc

/-- Every error outcome of `getService` is the unregistered-key error for a
key actually absent from the registry: the check at injector.ts lines 88-90
is the engine's only throw site. -/
theorem getService_error_unregistered (reg : Registry) :
    ∀ fuel inj w k inj' w' e,
      getService reg fuel inj w k = some (inj', w', Except.error e) →
      regGet reg e.key = none := by
  intro fuel
  induction fuel with
  | zero => intro inj w k inj' w' e h; simp [getService] at h
  | succ fuel ih =>
      intro inj w k inj' w' e h
      cases hreg : regGet reg k with
      | none =>
          rw [getService_unreg fuel inj w hreg] at h
          simp only [Option.some.injEq, Prod.mk.injEq] at h
          obtain ⟨-, -, h3⟩ := h
          injection h3 with h3'
          rw [← h3']
          exact hreg
      | some cfg =>
          simp only [getService, hreg] at h
          cases hs : cfg.scope with
          | SingleInstance =>
              rw [hs] at h
              cases hf : mfindFirst inj.single (aliasKeys reg cfg) with
              | some hd => rw [hf] at h; simp at h
              | none =>
                  rw [hf] at h
                  cases hc : createInstanceWith (getService reg fuel) inj w cfg with
                  | none => rw [hc] at h; simp at h
                  | some t =>
                      obtain ⟨i2, w2, r2⟩ := t
                      rw [hc] at h
                      cases r2 with
                      | error e2 =>
                          simp only [Option.some.injEq, Prod.mk.injEq] at h
                          obtain ⟨-, -, h3⟩ := h
                          injection h3 with h3'
                          exact h3' ▸ createInstanceWith_error (fun a b c d f g hq => ih a b c d f g hq) hc
                      | ok hd => simp at h
          | Transient =>
              rw [hs] at h
              cases hf : mfindFirst (dataOf w inj.ctx).scopedServices (aliasKeys reg cfg) with
              | some hd => rw [hf] at h; simp at h
              | none =>
                  rw [hf] at h
                  cases hc : createInstanceWith (getService reg fuel) inj w cfg with
                  | none => rw [hc] at h; simp at h
                  | some t =>
                      obtain ⟨i2, w2, r2⟩ := t
                      rw [hc] at h
                      cases r2 with
                      | error e2 =>
                          simp only [Option.some.injEq, Prod.mk.injEq] at h
                          obtain ⟨-, -, h3⟩ := h
                          injection h3 with h3'
                          exact h3' ▸ createInstanceWith_error (fun a b c d f g hq => ih a b c d f g hq) hc
                      | ok hd => simp at h
          | OnDemand =>
              rw [hs] at h
              cases hc : createInstanceWith (getService reg fuel) inj w cfg with
              | none => rw [hc] at h; simp at h
              | some t =>
                  obtain ⟨i2, w2, r2⟩ := t
                  rw [hc] at h
                  cases r2 with
                  | error e2 =>
                      simp only [Option.some.injEq, Prod.mk.injEq] at h
                      obtain ⟨-, -, h3⟩ := h
                      injection h3 with h3'
                      exact h3' ▸ createInstanceWith_error (fun a b c d f g hq => ih a b c d f g hq) hc
                  | ok hd => simp at h

/-! ### Small facts about `endScope` and the constructor -/

theorem mfindFirst_nil : ∀ keys : List String, mfindFirst [] keys = none := by
  intro keys
  induction keys with
  | nil => rfl
  | cons k ks ih => simp [mfindFirst, mget, ih]

theorem dataBelow_empty (n : Nat) : dataBelow emptyDepData n :=
  ⟨fun p hp => by simp [emptyDepData] at hp, fun p hp => by simp [emptyDepData] at hp⟩

theorem endScope_nextVal (inj : Injector) (w : World) :
    (endScope inj w).nextVal = w.nextVal := rfl

theorem dataOf_endScope (inj : Injector) (w : World) :
    dataOf (endScope inj w) inj.ctx = emptyDepData := by
  unfold endScope
  exact dataOf_setData _ _ _

theorem endScope_events (inj : Injector) (w : World) :
    (endScope inj w).events =
      w.events ++
        ((dataOf w inj.ctx).onDemandServices ++ (dataOf w inj.ctx).scopedServices.map Prod.snd ++
          (if inj.isMainScope then inj.single.map Prod.snd else [])).map
          (fun h => Event.dispose h.onScopeEnd h.inst inj.ctx) := rfl

/-- The constructor leaves the counter and the trace alone, and preserves
validity both for the constructed injector and for any pre-existing one. -/
theorem stOk_after_mkInjector {inj : Injector} {w : World} (hok : stOk inj w) (c : Nat)
    (s : List (String × ServiceHandle)) (b : Bool) (hs : mapBelow s w.nextVal) :
    stOk ⟨b, c, s⟩ (mkInjector w c s b).2 ∧ stOk inj (mkInjector w c s b).2 ∧
    (mkInjector w c s b).2.nextVal = w.nextVal ∧ (mkInjector w c s b).2.events = w.events := by
  have hw' : (mkInjector w c s b).2 = w ∨ (mkInjector w c s b).2 = setData w c emptyDepData := by
    unfold mkInjector
    by_cases hb : (mget w.ctxData c).isSome
    · simp [hb]
    · simp [hb]
  rcases hw' with hw' | hw' <;> rw [hw']
  · exact ⟨⟨hok.1, hs⟩, hok, rfl, rfl⟩
  · exact ⟨⟨worldOk_setData hok.1 (dataBelow_empty _), hs⟩,
           ⟨worldOk_setData hok.1 (dataBelow_empty _), hok.2⟩, rfl, rfl⟩

/-! ### Claim theorems -/

/-- C1: for a SingleInstance-registered key, once a resolution has
succeeded, every later resolution on the same scope — and on any injector
holding the same SingleInstance map, in particular on every descendant
created by `createScope` afterwards — returns the identical instance with
the state completely unchanged (so the factory is not invoked again);
and when the first resolution missed the cache it invoked the factory,
allocated the returned instance freshly, and cached its handle under an
alias key in the shared SingleInstance cache. -/
theorem c1_single_instance_shared {reg : Registry} {k : String} {cfg : ServiceConfiguration}
    {inj inj1 : Injector} {w w1 : World} {v : Nat} {fuel : Nat}
    (hreg : regGet reg k = some cfg) (hs : cfg.scope = ScopeType.SingleInstance)
    (h1 : getService reg fuel inj w k = some (inj1, w1, Except.ok v)) :
    (∀ fuel2, getService reg (fuel2 + 1) inj1 w1 k = some (inj1, w1, Except.ok v)) ∧
    (∀ (j : Injector) (wj : World) (fuelj : Nat), j.single = inj1.single →
       getService reg (fuelj + 1) j wj k = some (j, wj, Except.ok v)) ∧
    (∀ c2 fuel3, getService reg (fuel3 + 1)
         (createScope inj1 w1 c2).1 (createScope inj1 w1 c2).2 k =
       some ((createScope inj1 w1 c2).1, (createScope inj1 w1 c2).2, Except.ok v)) ∧
    (mfindFirst inj.single (aliasKeys reg cfg) = none →
       (∃ h, mfindFirst inj1.single (aliasKeys reg cfg) = some h ∧ h.inst = v) ∧
       w.nextVal ≤ v ∧
       ∃ E, w1.events = w.events ++ E ++ [Event.facCall cfg.factoryId v]) := by
  obtain ⟨h, hfind, hinst⟩ := single_cached_after hreg hs h1
  have hhit : ∀ (j : Injector) (wj : World) (fuelj : Nat), j.single = inj1.single →
      getService reg (fuelj + 1) j wj k = some (j, wj, Except.ok v) := by
    intro j wj fuelj hj
    have hfj : mfindFirst j.single (aliasKeys reg cfg) = some h := by rw [hj]; exact hfind
    rw [getService_single_hit fuelj wj hreg hs hfj, hinst]
  refine ⟨fun fuel2 => hhit inj1 w1 fuel2 rfl, hhit, fun c2 fuel3 => hhit _ _ fuel3 rfl, ?_⟩
  intro hmiss
  cases fuel with
  | zero => simp [getService] at h1
  | succ fuel =>
      obtain ⟨hle, E, hE⟩ := single_miss_fresh hreg hs hmiss h1
      exact ⟨⟨h, hfind, hinst⟩, hle, E, hE⟩

/-- C4: resolving a key with no registration fails with the
unregistered-key error carrying exactly that key and leaves the whole
state — both caches, the on-demand list and the event trace — unchanged;
and every error any `getService` call ever produces is the
unregistered-key error for a key that is indeed absent from the registry. -/
theorem c4_unregistered_error {reg : Registry} {k : String} (fuel : Nat)
    (inj : Injector) (w : World) (hk : regGet reg k = none) :
    getService reg (fuel + 1) inj w k = some (inj, w, Except.error ⟨k⟩) ∧
    (∀ fuel2 k2 inj2 w2 inj3 w3 e,
       getService reg fuel2 inj2 w2 k2 = some (inj3, w3, Except.error e) →
       regGet reg e.key = none) := by
  exact ⟨getService_unreg fuel inj w hk,
         fun fuel2 k2 inj2 w2 inj3 w3 e hcall =>
           getService_error_unregistered reg fuel2 inj2 w2 k2 inj3 w3 e hcall⟩

/-- C2: `createScope` seeds the child with a snapshot copy of the parent's
SingleInstance cache: the child's map equals the parent's at creation
time; a SingleInstance key the parent first resolves after the child was
created is resolved independently by the child (a different, freshly
allocated instance), and the child's creation is likewise invisible to the
parent, which keeps returning its own cached instance. -/
theorem c2_create_scope_snapshot {reg : Registry} {k : String} {cfg : ServiceConfiguration}
    {inj inj1 inj2 : Injector} {w w1 w2 : World} {v v2 : Nat} {c2 : Nat} {fuel fuel2 : Nat}
    (hok : stOk inj w)
    (hreg : regGet reg k = some cfg) (hs : cfg.scope = ScopeType.SingleInstance)
    (hmiss : mfindFirst inj.single (aliasKeys reg cfg) = none)
    (h1 : getService reg (fuel + 1) inj (createScope inj w c2).2 k =
            some (inj1, w1, Except.ok v))
    (h2 : getService reg (fuel2 + 1) (createScope inj w c2).1 w1 k =
            some (inj2, w2, Except.ok v2)) :
    (createScope inj w c2).1.single = inj.single ∧
    v2 ≠ v ∧
    (∀ fuel3, getService reg (fuel3 + 1) inj1 w2 k = some (inj1, w2, Except.ok v)) := by
  obtain ⟨-, hokP, hnv, -⟩ := stOk_after_mkInjector hok c2 inj.single false hok.2
  have hvlt : v < w1.nextVal :=
    ((getService_sound reg (fuel + 1)) inj (createScope inj w c2).2 k inj1 w1
        (Except.ok v) hokP h1).2 v rfl
  have hmiss' : mfindFirst (createScope inj w c2).1.single (aliasKeys reg cfg) = none := hmiss
  have hge : w1.nextVal ≤ v2 := (single_miss_fresh hreg hs hmiss' h2).1
  obtain ⟨h, hfind, hinst⟩ := single_cached_after hreg hs h1
  refine ⟨rfl, (lt_of_lt_of_le hvlt hge).ne', ?_⟩
  intro fuel3
  rw [getService_single_hit fuel3 w2 hreg hs hfind, hinst]

/-- C5: for a Transient-registered key, a second resolution on the same
scope returns the identical instance with the state unchanged; the first
resolution on a child scope bound to a fresh context returns a different,
freshly allocated instance; and after `endScope` the same scope's next
resolution invokes the factory again and returns a new instance. -/
theorem c5_transient_per_scope {reg : Registry} {k : String} {cfg : ServiceConfiguration}
    {inj inj1 : Injector} {w w1 : World} {v : Nat} {fuel : Nat}
    (hok : stOk inj w)
    (hreg : regGet reg k = some cfg) (hs : cfg.scope = ScopeType.Transient)
    (h1 : getService reg fuel inj w k = some (inj1, w1, Except.ok v)) :
    (∀ fuel2, getService reg (fuel2 + 1) inj1 w1 k = some (inj1, w1, Except.ok v)) ∧
    (∀ c2 fuel3 inj2 w2 v2, mget w1.ctxData c2 = none →
       getService reg (fuel3 + 1) (createScope inj1 w1 c2).1 (createScope inj1 w1 c2).2 k =
         some (inj2, w2, Except.ok v2) →
       v2 ≠ v) ∧
    (∀ fuel4 inj3 w3 v3,
       getService reg (fuel4 + 1) inj1 (endScope inj1 w1) k = some (inj3, w3, Except.ok v3) →
       v3 ≠ v ∧
       ∃ E, w3.events = (endScope inj1 w1).events ++ E ++ [Event.facCall cfg.factoryId v3]) := by
  obtain ⟨h, hfind, hinst⟩ := transient_cached_after hreg hs h1
  have hvlt : v < w1.nextVal :=
    ((getService_sound reg fuel) inj w k inj1 w1 (Except.ok v) hok h1).2 v rfl
  refine ⟨?_, ?_, ?_⟩
  · intro fuel2
    rw [getService_transient_hit fuel2 hreg hs hfind, hinst]
  · intro c2 fuel3 inj2 w2 v2 hfresh h2
    have hw2 : (createScope inj1 w1 c2).2 = setData w1 c2 emptyDepData := by
      simp [createScope, mkInjector, hfresh]
    rw [hw2] at h2
    have hfe : mfindFirst (dataOf (setData w1 c2 emptyDepData)
        (createScope inj1 w1 c2).1.ctx).scopedServices (aliasKeys reg cfg) = none := by
      rw [show (createScope inj1 w1 c2).1.ctx = c2 from rfl, dataOf_setData]
      exact mfindFirst_nil _
    have hge : (setData w1 c2 emptyDepData).nextVal ≤ v2 :=
      (transient_miss_fresh hreg hs hfe h2).1
    exact (lt_of_lt_of_le hvlt hge).ne'
  · intro fuel4 inj3 w3 v3 h3
    have hfe : mfindFirst (dataOf (endScope inj1 w1) inj1.ctx).scopedServices
        (aliasKeys reg cfg) = none := by
      rw [dataOf_endScope]
      exact mfindFirst_nil _
    obtain ⟨hge, E, hE⟩ := transient_miss_fresh hreg hs hfe h3
    rw [endScope_nextVal] at hge
    exact ⟨(lt_of_lt_of_le hvlt hge).ne', E, hE⟩

/-- C9: the engine's per-scope state lives on the context object itself
(the symbol-keyed slot, reused when already present), so a child created
by `createScope` over the parent's own context object keeps the world
untouched, shares the parent's Transient cache (same instance returned,
no factory call), and its `endScope` resets the shared state for the
parent as well: the parent's next resolution creates a new instance. -/
theorem c9_context_bound_state {reg : Registry} {k : String} {cfg : ServiceConfiguration}
    {inj inj1 : Injector} {w w1 : World} {v : Nat} {fuel : Nat}
    (hok : stOk inj w)
    (hreg : regGet reg k = some cfg) (hs : cfg.scope = ScopeType.Transient)
    (h1 : getService reg fuel inj w k = some (inj1, w1, Except.ok v)) :
    (createScope inj1 w1 inj1.ctx).2 = w1 ∧
    (∀ fuel2, getService reg (fuel2 + 1) (createScope inj1 w1 inj1.ctx).1 w1 k =
       some ((createScope inj1 w1 inj1.ctx).1, w1, Except.ok v)) ∧
    (∀ fuel3 inj3 w3 v3,
       getService reg (fuel3 + 1) inj1 (endScope (createScope inj1 w1 inj1.ctx).1 w1) k =
         some (inj3, w3, Except.ok v3) →
       v3 ≠ v) := by
  obtain ⟨h, hfind, hinst⟩ := transient_cached_after hreg hs h1
  have hvlt : v < w1.nextVal :=
    ((getService_sound reg fuel) inj w k inj1 w1 (Except.ok v) hok h1).2 v rfl
  have hsome : (mget w1.ctxData inj1.ctx).isSome = true := by
    cases hbg : mget w1.ctxData inj1.ctx with
    | some d => rfl
    | none =>
        exfalso
        have hodata : dataOf w1 inj1.ctx = emptyDepData := by simp [dataOf, hbg]
        rw [hodata, show emptyDepData.scopedServices = [] from rfl, mfindFirst_nil] at hfind
        cases hfind
  have hfindc : mfindFirst (dataOf w1 (createScope inj1 w1 inj1.ctx).1.ctx).scopedServices
      (aliasKeys reg cfg) = some h := hfind
  refine ⟨by simp [createScope, mkInjector, hsome], ?_, ?_⟩
  · intro fuel2
    rw [getService_transient_hit fuel2 hreg hs hfindc, hinst]
  · intro fuel3 inj3 w3 v3 h3
    have hfe : mfindFirst (dataOf (endScope (createScope inj1 w1 inj1.ctx).1 w1)
        inj1.ctx).scopedServices (aliasKeys reg cfg) = none := by
      rw [show dataOf (endScope (createScope inj1 w1 inj1.ctx).1 w1) inj1.ctx = emptyDepData from
            dataOf_endScope (createScope inj1 w1 inj1.ctx).1 w1]
      exact mfindFirst_nil _
    have hge := (transient_miss_fresh hreg hs hfe h3).1
    rw [endScope_nextVal] at hge
    exact (lt_of_lt_of_le hvlt hge).ne'

/-- C10: `endScope` never clears the SingleInstance cache: even after the
root scope's `endScope` has run the SingleInstance disposers, the same
scope's next resolution of a SingleInstance key returns the previously
created — and already disposed — instance without touching the state, and
a second `endScope` invokes the SingleInstance disposers again on those
same instances. -/
theorem c10_endscope_keeps_single_cache {reg : Registry} {k : String}
    {cfg : ServiceConfiguration} {inj inj1 : Injector} {w w1 : World} {v : Nat} {fuel : Nat}
    (hmain : inj.isMainScope = true)
    (hreg : regGet reg k = some cfg) (hs : cfg.scope = ScopeType.SingleInstance)
    (h1 : getService reg fuel inj w k = some (inj1, w1, Except.ok v)) :
    (∀ fuel2, getService reg (fuel2 + 1) inj1 (endScope inj1 w1) k =
       some (inj1, endScope inj1 w1, Except.ok v)) ∧
    (∃ d, Event.dispose d v inj1.ctx ∈ (endScope inj1 w1).events) ∧
    ((endScope inj1 (endScope inj1 w1)).events =
       (endScope inj1 w1).events ++
         (inj1.single.map Prod.snd).map (fun h => Event.dispose h.onScopeEnd h.inst inj1.ctx)) := by
  obtain ⟨h, hfind, hinst⟩ := single_cached_after hreg hs h1
  have hmain1 : inj1.isMainScope = true := by
    cases fuel with
    | zero => simp [getService] at h1
    | succ fuel =>
        have := (getService_mono reg (fuel + 1)) inj w k inj1 w1 (Except.ok v) h1
        rw [this.2.1, hmain]
  refine ⟨?_, ?_, ?_⟩
  · intro fuel2
    rw [getService_single_hit fuel2 (endScope inj1 w1) hreg hs hfind, hinst]
  · obtain ⟨k', hk'⟩ := mfindFirst_mem hfind
    refine ⟨h.onScopeEnd, ?_⟩
    rw [endScope_events, hmain1]
    simp only [if_true, List.mem_append]
    right
    rw [← hinst]
    exact List.mem_map.mpr ⟨h, List.mem_append.mpr (Or.inr
      (List.mem_map.mpr ⟨(k', h), hk', rfl⟩)), rfl⟩
  · rw [endScope_events inj1 (endScope inj1 w1), dataOf_endScope, hmain1]
    simp [emptyDepData]

/-- C3: `endScope` emits one disposer invocation per tracked handle, in
accumulation order — the on-demand list in creation order, then the
Transient cache's values in insertion order, then, exactly when the scope
is the main scope, the SingleInstance cache's values in insertion order —
resets the context's dependency data to empty, and afterwards a Transient
or OnDemand resolution on the same scope invokes the factory again and
returns a freshly allocated instance. -/
theorem c3_endscope_disposes_and_resets (reg : Registry) (inj : Injector) (w : World) :
    (endScope inj w).events =
      w.events ++
        ((dataOf w inj.ctx).onDemandServices ++ (dataOf w inj.ctx).scopedServices.map Prod.snd ++
          (if inj.isMainScope then inj.single.map Prod.snd else [])).map
          (fun h => Event.dispose h.onScopeEnd h.inst inj.ctx) ∧
    dataOf (endScope inj w) inj.ctx = emptyDepData ∧
    (∀ k cfg fuel inj2 w2 v, regGet reg k = some cfg → cfg.scope = ScopeType.Transient →
       getService reg (fuel + 1) inj (endScope inj w) k = some (inj2, w2, Except.ok v) →
       w.nextVal ≤ v ∧
       ∃ E, w2.events = (endScope inj w).events ++ E ++ [Event.facCall cfg.factoryId v]) ∧
    (∀ k cfg fuel inj2 w2 v, regGet reg k = some cfg → cfg.scope = ScopeType.OnDemand →
       getService reg (fuel + 1) inj (endScope inj w) k = some (inj2, w2, Except.ok v) →
       w.nextVal ≤ v ∧
       ∃ E, w2.events = (endScope inj w).events ++ E ++ [Event.facCall cfg.factoryId v]) := by
  refine ⟨endScope_events inj w, dataOf_endScope inj w, ?_, ?_⟩
  · intro k cfg fuel inj2 w2 v hreg hsc h2
    have hfe : mfindFirst (dataOf (endScope inj w) inj.ctx).scopedServices
        (aliasKeys reg cfg) = none := by
      rw [dataOf_endScope]
      exact mfindFirst_nil _
    obtain ⟨hge, E, hE⟩ := transient_miss_fresh hreg hsc hfe h2
    rw [endScope_nextVal] at hge
    exact ⟨hge, E, hE⟩
  · intro k cfg fuel inj2 w2 v hreg hsc h2
    obtain ⟨hge, E, hE⟩ := ondemand_fresh hreg hsc h2
    rw [endScope_nextVal] at hge
    exact ⟨hge, E, hE⟩

/-! ### Concrete scenario data used to witness the claims -/

/-- The empty initial heap. -/
def w0 : World := ⟨[], 0, []⟩

/-- A root injector over context object 0. -/
def injW : Injector := (newInjector w0 0).1

/-- The heap after constructing `injW` (context 0 bound to empty data). -/
def wW : World := (newInjector w0 0).2

/-- Sample registry: one SingleInstance key, one Transient key, one
OnDemand key, and a pair of alias keys `A`/`B` registered together (one
shared configuration object, descId 3). -/
def regW : Registry :=
  [("S", ⟨0, ScopeType.SingleInstance, 0, [], 10⟩),
   ("T", ⟨1, ScopeType.Transient, 1, [], 11⟩),
   ("D", ⟨2, ScopeType.OnDemand, 2, [], 12⟩),
   ("A", ⟨3, ScopeType.SingleInstance, 3, [], 13⟩),
   ("B", ⟨3, ScopeType.SingleInstance, 3, [], 13⟩)]

/-- The injector after `injW` resolves `S` once. -/
def injS : Injector := ⟨true, 0, [("S", ⟨0, 10⟩)]⟩

/-- The heap after `injW` resolves `S` once. -/
def wS : World := ⟨[(0, emptyDepData)], 1, [Event.facCall 0 0]⟩

/-- The heap after `injW` resolves `T` once. -/
def wT : World := ⟨[(0, ⟨[("T", ⟨0, 11⟩)], []⟩)], 1, [Event.facCall 1 0]⟩

theorem stOk_start : stOk injW wW := by
  constructor
  · intro p hp
    have hp' : p = (0, emptyDepData) := by
      simpa [wW, newInjector, mkInjector, w0, setData, mset, mget] using hp
    rw [hp']
    exact dataBelow_empty _
  · intro p hp
    simp [injW, newInjector, mkInjector] at hp

/-! ### The validator claims -/

/-- Registry of the direct-circularity scenario: `CircularService` whose
factory resolves `CircularService` itself. -/
def regCircular : Registry :=
  [("CircularService", ⟨0, ScopeType.OnDemand, 0, ["CircularService"], 0⟩)]

/-- Registry of the scope-violation scenario: a SingleInstance root whose
factory resolves a Transient dependency. -/
def regScopes : Registry :=
  [("SimpleService", ⟨0, ScopeType.Transient, 0, [], 0⟩),
   ("AnotherService", ⟨1, ScopeType.SingleInstance, 1, ["SimpleService"], 1⟩)]

/-- C7: the simulating resolver, asked for a registered dependency already
in this pass's visited set, appends exactly the circular-dependency line
and returns without recursing (any `recurse`, visited set unchanged); and
on the one-service self-circular registry `validateRegistry` returns
exactly the single expected line — the root key is not pre-visited, so the
self-edge is followed once and flagged on the second encounter. -/
theorem c7_self_circular_diagnostic :
    (∀ (reg : Registry) (rk : String) (rs : ScopeType)
       (recurse : VState → List String → VState) (st : VState) (dk : String)
       (sr : ServiceConfiguration),
       regGet reg dk = some sr → st.visited.contains dk = true →
       vStep reg rk rs recurse st dk =
         { st with errors := st.errors ++ [circularMsg rk dk] }) ∧
    validateRegistry regCircular =
      ["Root Service with key CircularService has a circular dependency with CircularService."] := by
  constructor
  · intro reg rk rs recurse st dk sr hreg hvis
    simp only [vStep, hreg, hvis, if_true]
  · rfl

/-- C8: the simulating resolver, asked for a registered, not-yet-visited
dependency whose lifetime ordinal strictly exceeds the root's (under
OnDemand = 1 < SingleInstance = 2 < Transient = 3), appends exactly the
less-embracing diagnostic naming the root key, the root's lifetime name,
the dependency key and the dependency's lifetime name, and does not
recurse into the dependency's factory (any `recurse`, visited unchanged);
in particular a SingleInstance root over a Transient dependency yields
that one line. -/
theorem c8_scope_incompatibility_diagnostic :
    (∀ (reg : Registry) (rk : String) (rs : ScopeType)
       (recurse : VState → List String → VState) (st : VState) (dk : String)
       (sr : ServiceConfiguration),
       regGet reg dk = some sr → st.visited.contains dk = false →
       rs.toNat < sr.scope.toNat →
       vStep reg rk rs recurse st dk =
         { st with errors := st.errors ++ [scopeMsg rk rs dk sr.scope] }) ∧
    validateRegistry regScopes =
      ["Root Service with key AnotherService has a scope of SingleInstance which is less embracing than SimpleService scope of Transient."] := by
  constructor
  · intro reg rk rs recurse st dk sr hreg hvis hlt
    simp only [vStep, hreg, hvis, hlt, Bool.false_eq_true, if_false, if_true]
  · rfl

/-! ### C6: aliasing — descriptor identity in the engine, factory identity
in the validator -/

/-- Two separate registrations (distinct configuration objects, descIds 1
and 2) that were handed the same factory function (factoryId 1), plus a
root whose factory resolves `A` then `B`. -/
def regSharedFactory : Registry :=
  [("R", ⟨0, ScopeType.OnDemand, 0, ["A", "B"], 0⟩),
   ("A", ⟨1, ScopeType.OnDemand, 1, [], 1⟩),
   ("B", ⟨2, ScopeType.OnDemand, 1, [], 2⟩)]

/-- Two independently built configurations with identical fields — same
scope, same factory function, same disposer — registered under distinct
keys by separate `add` calls (distinct descriptor objects, descIds 0
and 1). -/
def regTwinDesc : Registry :=
  [("A", ⟨0, ScopeType.SingleInstance, 7, [], 9⟩),
   ("B", ⟨1, ScopeType.SingleInstance, 7, [], 9⟩)]

/-- C6 counterexample: the claim that the validator's alias set of a
resolved key is exactly the registry keys whose descriptor is
reference-identical to the resolved descriptor is false.  On
`regSharedFactory` the descriptors of `A` and `B` are distinct objects,
yet the source validator marks `B` visited while resolving `A` (it
compares factory identity) and reports a circular dependency on the `B`
edge, whereas the descriptor-identity reading of the specification
predicts no diagnostic at all. -/
theorem c6_counterexample :
    validateRegistry regSharedFactory =
      ["Root Service with key R has a circular dependency with B."] ∧
    validateRegistryDescAlias regSharedFactory = [] ∧
    regGet regSharedFactory "A" ≠ regGet regSharedFactory "B" := by
  refine ⟨rfl, rfl, ?_⟩
  decide

/-- C6 (amended): in the engine, aliasing is decided by reference identity
of the stored descriptor: all keys registered with the identical
configuration resolve to one cached instance (SingleInstance and
Transient), and two independently built descriptors with identical fields
are never engine aliases — resolving their two keys creates two distinct
instances.  In the validator, equivalence is decided by reference identity
of the descriptor's *factory function*: on the fall-through branch the
keys marked visited are exactly those whose stored factory is
reference-identical to the dependency's. -/
theorem c6_alias_identity_amended :
    (∀ (reg : Registry) (a b : String) (cfg : ServiceConfiguration)
       (inj inj1 : Injector) (w w1 : World) (v : Nat) (fuel fuel2 : Nat),
       regGet reg a = some cfg → regGet reg b = some cfg →
       cfg.scope = ScopeType.SingleInstance →
       getService reg fuel inj w a = some (inj1, w1, Except.ok v) →
       getService reg (fuel2 + 1) inj1 w1 b = some (inj1, w1, Except.ok v)) ∧
    (∀ (reg : Registry) (a b : String) (cfg : ServiceConfiguration)
       (inj inj1 : Injector) (w w1 : World) (v : Nat) (fuel fuel2 : Nat),
       regGet reg a = some cfg → regGet reg b = some cfg →
       cfg.scope = ScopeType.Transient →
       getService reg fuel inj w a = some (inj1, w1, Except.ok v) →
       getService reg (fuel2 + 1) inj1 w1 b = some (inj1, w1, Except.ok v)) ∧
    (∀ (reg : Registry) (rk : String) (rs : ScopeType)
       (recurse : VState → List String → VState) (st : VState) (dk : String)
       (sr : ServiceConfiguration),
       regGet reg dk = some sr → st.visited.contains dk = false →
       ¬ rs.toNat < sr.scope.toNat →
       vStep reg rk rs recurse st dk =
         recurse { st with visited := addAllVisited st.visited (equivKeys reg sr) } sr.deps) ∧
    (getService regTwinDesc 1 injW wW "A" =
       some (⟨true, 0, [("A", ⟨0, 9⟩)]⟩, ⟨[(0, emptyDepData)], 1, [Event.facCall 7 0]⟩,
             Except.ok 0)) ∧
    (getService regTwinDesc 1 ⟨true, 0, [("A", ⟨0, 9⟩)]⟩
         ⟨[(0, emptyDepData)], 1, [Event.facCall 7 0]⟩ "B" =
       some (⟨true, 0, [("A", ⟨0, 9⟩), ("B", ⟨1, 9⟩)]⟩,
             ⟨[(0, emptyDepData)], 2, [Event.facCall 7 0, Event.facCall 7 1]⟩,
             Except.ok 1)) := by
  refine ⟨?_, ?_, ?_, rfl, rfl⟩
  · intro reg a b cfg inj inj1 w w1 v fuel fuel2 hra hrb hsc h1
    obtain ⟨h, hfind, hinst⟩ := single_cached_after hra hsc h1
    rw [getService_single_hit fuel2 w1 hrb hsc hfind, hinst]
  · intro reg a b cfg inj inj1 w w1 v fuel fuel2 hra hrb hsc h1
    obtain ⟨h, hfind, hinst⟩ := transient_cached_after hra hsc h1
    rw [getService_transient_hit fuel2 hrb hsc hfind, hinst]
  · intro reg rk rs recurse st dk sr hreg hvis hlt
    simp only [vStep, hreg, hvis, hlt, Bool.false_eq_true, if_false]

/-! ### Witnesses: the claim theorems applied to concrete runs -/

/-- C1 witness: after `injW` resolves `S` once, a second resolution on the
same scope returns instance 0 with the state unchanged. -/
theorem c1_witness :
    getService regW 1 injS wS "S" = some (injS, wS, Except.ok 0) :=
  (@c1_single_instance_shared regW "S" ⟨0, ScopeType.SingleInstance, 0, [], 10⟩
      injW injS wW wS 0 1 (by rfl) rfl (by rfl)).1 0

/-- C2 witness: child created before the parent resolves `S`; parent gets
instance 0, the already-created child gets a distinct instance 1, and the
parent afterwards still gets 0. -/
theorem c2_witness :
    (createScope injW wW 1).1.single = injW.single ∧ (1 : Nat) ≠ 0 ∧
    getService regW 1 injS ⟨[(0, emptyDepData), (1, emptyDepData)], 2,
        [Event.facCall 0 0, Event.facCall 0 1]⟩ "S" =
      some (injS, ⟨[(0, emptyDepData), (1, emptyDepData)], 2,
        [Event.facCall 0 0, Event.facCall 0 1]⟩, Except.ok 0) := by
  have thm := @c2_create_scope_snapshot regW "S" ⟨0, ScopeType.SingleInstance, 0, [], 10⟩
      injW injS ⟨false, 1, [("S", ⟨1, 10⟩)]⟩ wW
      ⟨[(0, emptyDepData), (1, emptyDepData)], 1, [Event.facCall 0 0]⟩
      ⟨[(0, emptyDepData), (1, emptyDepData)], 2, [Event.facCall 0 0, Event.facCall 0 1]⟩
      0 1 1 0 0 stOk_start (by rfl) rfl (by rfl) (by rfl) (by rfl)
  exact ⟨thm.1, thm.2.1, thm.2.2 0⟩

/-- C3 witness: ending `injW`'s scope after one Transient resolution emits
exactly the one disposer invocation, and the next Transient resolution
allocates a fresh instance (1, at the counter). -/
theorem c3_witness :
    (endScope injW wT).events = wT.events ++ [Event.dispose 11 0 0] ∧ wT.nextVal ≤ 1 := by
  have thm := c3_endscope_disposes_and_resets regW injW wT
  exact ⟨thm.1,
         (thm.2.2.1 "T" ⟨1, ScopeType.Transient, 1, [], 11⟩ 0 injW
            ⟨[(0, ⟨[("T", ⟨1, 11⟩)], []⟩)], 2,
              [Event.facCall 1 0, Event.dispose 11 0 0, Event.facCall 1 1]⟩ 1
            (by rfl) rfl (by rfl)).1⟩

/-- C4 witness: resolving the unregistered key `X` fails with the
unregistered-key error carrying `X` and leaves the state unchanged. -/
theorem c4_witness :
    getService regW 1 injW wW "X" = some (injW, wW, Except.error ⟨"X"⟩) :=
  (c4_unregistered_error 0 injW wW (by rfl : regGet regW "X" = none)).1

/-- C5 witness: a second `T` resolution on the same scope returns the
cached instance 0 unchanged, while a child over a fresh context gets the
distinct instance 1. -/
theorem c5_witness :
    getService regW 1 injW wT "T" = some (injW, wT, Except.ok 0) ∧ (1 : Nat) ≠ 0 := by
  have thm := @c5_transient_per_scope regW "T" ⟨1, ScopeType.Transient, 1, [], 11⟩
      injW injW wW wT 0 1 stOk_start (by rfl) rfl (by rfl)
  refine ⟨thm.1 0, thm.2.1 1 0 ⟨false, 1, []⟩
      ⟨[(0, ⟨[("T", ⟨0, 11⟩)], []⟩), (1, ⟨[("T", ⟨1, 11⟩)], []⟩)], 2,
        [Event.facCall 1 0, Event.facCall 1 1]⟩ 1 (by rfl) (by rfl)⟩

/-- C6 witness (amended claim): `A` and `B` are registered together (one
shared configuration), so after resolving `A` the resolution of `B` hits
the same cache slot and returns the identical instance 0. -/
theorem c6_witness :
    getService regW 1 ⟨true, 0, [("A", ⟨0, 13⟩)]⟩ ⟨[(0, emptyDepData)], 1,
        [Event.facCall 3 0]⟩ "B" =
      some (⟨true, 0, [("A", ⟨0, 13⟩)]⟩, ⟨[(0, emptyDepData)], 1, [Event.facCall 3 0]⟩,
            Except.ok 0) :=
  c6_alias_identity_amended.1 regW "A" "B" ⟨3, ScopeType.SingleInstance, 3, [], 13⟩
    injW ⟨true, 0, [("A", ⟨0, 13⟩)]⟩ wW ⟨[(0, emptyDepData)], 1, [Event.facCall 3 0]⟩
    0 1 0 (by rfl) (by rfl) rfl (by rfl)

/-- C7 witness: the simulating resolver of the self-circular pass, asked
for `CircularService` when it is already visited, appends exactly the
circular-dependency line and leaves the visited set unchanged. -/
theorem c7_witness :
    vStep regCircular "CircularService" ScopeType.OnDemand
        (vFold (vRun regCircular "CircularService" ScopeType.OnDemand 1))
        ⟨[], ["CircularService"]⟩ "CircularService" =
      ⟨["Root Service with key CircularService has a circular dependency with CircularService."],
       ["CircularService"]⟩ :=
  c7_self_circular_diagnostic.1 regCircular "CircularService" ScopeType.OnDemand
    (vFold (vRun regCircular "CircularService" ScopeType.OnDemand 1))
    ⟨[], ["CircularService"]⟩ "CircularService"
    ⟨0, ScopeType.OnDemand, 0, ["CircularService"], 0⟩ (by rfl) (by rfl)

/-- C8 witness: the simulating resolver of the pass rooted at the
SingleInstance service, asked for the not-yet-visited Transient
dependency, appends exactly the less-embracing diagnostic. -/
theorem c8_witness :
    vStep regScopes "AnotherService" ScopeType.SingleInstance
        (vFold (vRun regScopes "AnotherService" ScopeType.SingleInstance 1))
        ⟨[], []⟩ "SimpleService" =
      ⟨["Root Service with key AnotherService has a scope of SingleInstance which is less embracing than SimpleService scope of Transient."],
       []⟩ :=
  c8_scope_incompatibility_diagnostic.1 regScopes "AnotherService" ScopeType.SingleInstance
    (vFold (vRun regScopes "AnotherService" ScopeType.SingleInstance 1))
    ⟨[], []⟩ "SimpleService" ⟨0, ScopeType.Transient, 0, [], 0⟩ (by rfl) (by rfl) (by decide)

/-- C9 witness: a child over `injW`'s own context object leaves the world
untouched and returns the parent's cached Transient instance 0. -/
theorem c9_witness :
    (createScope injW wT injW.ctx).2 = wT ∧
    getService regW 1 (createScope injW wT injW.ctx).1 wT "T" =
      some ((createScope injW wT injW.ctx).1, wT, Except.ok 0) := by
  have thm := @c9_context_bound_state regW "T" ⟨1, ScopeType.Transient, 1, [], 11⟩
      injW injW wW wT 0 1 stOk_start (by rfl) rfl (by rfl)
  exact ⟨thm.1, thm.2.1 0⟩

/-- C10 witness: after the root's `endScope`, resolving `S` again returns
the old instance 0 with the state unchanged, and a second `endScope`
re-emits the SingleInstance disposer invocation. -/
theorem c10_witness :
    getService regW 1 injS (endScope injS wS) "S" =
      some (injS, endScope injS wS, Except.ok 0) ∧
    (endScope injS (endScope injS wS)).events =
      (endScope injS wS).events ++
        (injS.single.map Prod.snd).map (fun h => Event.dispose h.onScopeEnd h.inst injS.ctx) := by
  have thm := @c10_endscope_keeps_single_cache regW "S" ⟨0, ScopeType.SingleInstance, 0, [], 10⟩
      injW injS wW wS 0 1 rfl (by rfl) rfl (by rfl)
  exact ⟨thm.1 0, thm.2.2⟩

end Depinj
